import Mathlib

/-!
Shallow embedding of `src/trader.py` (soutik/ai-stock-trader).

Numbers: Python `float` prices and cash are modelled as `ℚ`; share counts
are Python `int`, modelled as `ℤ`.  Python dicts keyed by strings are
modelled as association lists with first-match lookup (`dget`) and
replace-or-append update (`dset`), mirroring dict semantics for keys that
occur at most once (which is all a dict can hold).
-/

namespace StockTrader

/-- `d.get(k, default)` on a Python dict modelled as an association list. -/
def dget {α : Type} : List (String × α) → String → α → α
  | [], _, default => default
  | kv :: rest, k, default => if kv.1 = k then kv.2 else dget rest k default

/-- `k in d` / `d.get(k)` returning an optional value. -/
def dgetOpt {α : Type} : List (String × α) → String → Option α
  | [], _ => none
  | kv :: rest, k => if kv.1 = k then some kv.2 else dgetOpt rest k

/-- `d[k] = v` on a Python dict: replace the first binding of `k`, else append. -/
def dset {α : Type} : List (String × α) → String → α → List (String × α)
  | [], k, v => [(k, v)]
  | kv :: rest, k, v => if kv.1 = k then (k, v) :: rest else kv :: dset rest k v

/-- One entry of `Portfolio.transactions` (trader.py lines 31-37 / 49-55).
The date is kept as the ISO string the code stores. -/
structure Transaction where
  date : String
  symbol : String
  action : String
  price : ℚ
  shares : ℤ
deriving DecidableEq, Repr

/-- `Portfolio.__init__` state (trader.py lines 17-21): cash, the
symbol → share-count dict, and the append-only transaction log. -/
structure Portfolio where
  cash : ℚ
  holdings : List (String × ℤ)
  transactions : List Transaction
deriving DecidableEq, Repr

/-- `Portfolio.buy` (trader.py lines 23-40): returns the Python return value
paired with the post-call state (the Python method mutates `self`). -/
def Portfolio.buy (p : Portfolio) (symbol : String) (price : ℚ) (shares : ℤ)
    (trade_date : String) : Bool × Portfolio :=
  let cost := price * (shares : ℚ)
  if p.cash < cost then (false, p)
  else (true,
    { cash := p.cash - cost
      holdings := dset p.holdings symbol (dget p.holdings symbol 0 + shares)
      transactions := p.transactions ++ [⟨trade_date, symbol, "BUY", price, shares⟩] })

/-- `Portfolio.sell` (trader.py lines 42-58).  For `shares > 0` a passing
guard implies the key is present, so `dset` of the decremented count models
`self.holdings[symbol] -= shares` exactly. -/
def Portfolio.sell (p : Portfolio) (symbol : String) (price : ℚ) (shares : ℤ)
    (trade_date : String) : Bool × Portfolio :=
  if dget p.holdings symbol 0 < shares then (false, p)
  else (true,
    { cash := p.cash + price * (shares : ℚ)
      holdings := dset p.holdings symbol (dget p.holdings symbol 0 - shares)
      transactions := p.transactions ++ [⟨trade_date, symbol, "SELL", price, shares⟩] })

/-- `Portfolio.get_value` (trader.py lines 60-64). -/
def Portfolio.get_value (p : Portfolio) (current_prices : List (String × ℚ)) : ℚ :=
  p.holdings.foldl (fun total kv => total + dget current_prices kv.1 0 * (kv.2 : ℚ)) p.cash

/-- One call in a sequence of `buy`/`sell` operations on a portfolio
(the two mutators of trader.py lines 23-58). -/
inductive TradeOp where
  | buyOp (symbol : String) (price : ℚ) (shares : ℤ) (date : String)
  | sellOp (symbol : String) (price : ℚ) (shares : ℤ) (date : String)

/-- Execute one call, keeping the post-call state (the Boolean result is
dropped, as callers that ignore it do). -/
def applyOp (p : Portfolio) : TradeOp → Portfolio
  | .buyOp s pr sh d => (p.buy s pr sh d).2
  | .sellOp s pr sh d => (p.sell s pr sh d).2

/-- Execute a sequence of calls in order. -/
def applyOps (p : Portfolio) (ops : List TradeOp) : Portfolio :=
  ops.foldl applyOp p

/-- A call with nonnegative price and positive integer share count. -/
def validOp : TradeOp → Prop
  | .buyOp _ pr sh _ => 0 ≤ pr ∧ 0 < sh
  | .sellOp _ pr sh _ => 0 ≤ pr ∧ 0 < sh

/-- The ledger invariant: nonnegative cash and nonnegative share count in
every holdings entry. -/
def Portfolio.nonneg (p : Portfolio) : Prop :=
  0 ≤ p.cash ∧ ∀ kv ∈ p.holdings, 0 ≤ kv.2

/-- The structured recommendation consumed by the trade policy
(trader.py lines 287-289); `action` is the string after `.upper()`. -/
structure Recommendation where
  action : String
  buy_limit : ℚ
  sell_limit : ℚ

/-- The per-symbol trade policy of `main` (trader.py lines 290-301):
BUY at or below the buy limit spends all cash on whole shares, SELL at or
above the sell limit liquidates the whole holding, anything else is a no-op.
`int(portfolio.cash // current_price)` is the floor of the quotient. -/
def tradeStep (portfolio : Portfolio) (symbol : String) (rec : Recommendation)
    (current_price : ℚ) (date : String) : Portfolio :=
  if rec.action = "BUY" ∧ current_price ≤ rec.buy_limit then
    let shares_to_buy : ℤ := ⌊portfolio.cash / current_price⌋
    if 0 < shares_to_buy then (portfolio.buy symbol current_price shares_to_buy date).2
    else portfolio
  else if rec.action = "SELL" ∧ rec.sell_limit ≤ current_price then
    let shares_to_sell : ℤ := dget portfolio.holdings symbol 0
    if 0 < shares_to_sell then (portfolio.sell symbol current_price shares_to_sell date).2
    else portfolio
  else portfolio

/-- `simulation_interval` (trader.py line 250): days added to the simulated
date after a traded day. -/
def simulation_interval : ℤ := 7

/-- The configured symbol list (trader.py line 241). -/
def symbols : List String := ["AAPL", "MSFT", "GOOG", "AMZN", "TSLA"]

/-- The mutable state of the simulation `while` loop (trader.py lines
264-265): the simulated date (as a day count) and the iteration counter
`days_run`, plus the portfolio. -/
structure LoopState where
  current_date : ℤ
  days_run : ℕ
  portfolio : Portfolio
deriving DecidableEq

/-- One pass of the `while days_run < simulation_days` body (trader.py lines
266-307), with the day's resolved prices and the per-symbol recommendations
(news fetch + LLM) supplied as inputs.  An empty price dict takes the
`continue` branch: the date advances by one calendar day and nothing else
changes.  Otherwise each configured symbol with a price is traded, `days_run`
is incremented and the date advances by `simulation_interval`. -/
def runDay (s : LoopState) (current_prices : List (String × ℚ))
    (recs : String → Recommendation) (date : String) : LoopState :=
  if current_prices = [] then
    { s with current_date := s.current_date + 1 }
  else
    { current_date := s.current_date + simulation_interval
      days_run := s.days_run + 1
      portfolio := symbols.foldl (fun p sym =>
        match dgetOpt current_prices sym with
        | none => p
        | some price => tradeStep p sym (recs sym) price date) s.portfolio }

/-- `StockMarketSimulator` state: the configured symbols and the per-symbol
historical (date, close) series.  Dates are day counts. -/
structure StockMarketSimulator where
  symbols : List String
  historical_data : List (String × List (ℤ × ℚ))
deriving DecidableEq

/-- `StockMarketSimulator.__init__` (trader.py lines 193-206), with
`yf.download` supplied as an input.  A symbol whose download is empty is
logged and simply omitted from `historical_data`; construction itself never
fails. -/
def simulatorInit (syms : List String) (download : String → List (ℤ × ℚ)) :
    StockMarketSimulator :=
  { symbols := syms
    historical_data := syms.filterMap (fun s =>
      if download s = [] then none else some (s, download s)) }

/-- `pandas.Index.asof` on a date-sorted series: the last row whose date is
at or before the query date, if any. -/
def asof (data : List (ℤ × ℚ)) (d : ℤ) : Option (ℤ × ℚ) :=
  data.foldl (fun acc row => if row.1 ≤ d then some row else acc) none

/-- `StockMarketSimulator.get_price` (trader.py lines 208-223):
`Except.error` models the uncaught `ValueError`, `Except.ok none` the
logged `None` return for a date before all data. -/
def get_price (m : StockMarketSimulator) (symbol : String) (simulation_date : ℤ) :
    Except String (Option ℚ) :=
  match dgetOpt m.historical_data symbol with
  | none => .error ("No historical data for " ++ symbol)
  | some data =>
    if data = [] then .error ("No historical data for " ++ symbol)
    else
      match asof data simulation_date with
      | none => .ok none
      | some row => .ok (some row.2)

/-- The `for symbol in self.symbols` loop body of `update_prices`: a
`ValueError` raised by `get_price` aborts the whole loop (it is not caught),
a `None` price is skipped with a warning, and other prices are added to the
dict being built. -/
def update_go (m : StockMarketSimulator) (simulation_date : ℤ) :
    List String → List (String × ℚ) → Except String (List (String × ℚ))
  | [], acc => .ok acc
  | symbol :: rest, acc =>
    match get_price m symbol simulation_date with
    | .error e => .error e
    | .ok none => update_go m simulation_date rest acc
    | .ok (some price) => update_go m simulation_date rest (acc ++ [(symbol, price)])

/-- `StockMarketSimulator.update_prices` (trader.py lines 225-236): builds
the day's price dict, skipping `None` prices; a `ValueError` from
`get_price` is not caught and propagates. -/
def update_prices (m : StockMarketSimulator) (simulation_date : ℤ) :
    Except String (List (String × ℚ)) :=
  update_go m simulation_date m.symbols []

/-! Basic dictionary lemmas. -/

theorem dget_dset_self {α : Type} (d : List (String × α)) (k : String) (v df : α) :
    dget (dset d k v) k df = v := by
  induction d with
  | nil => simp [dget, dset]
  | cons kv rest ih =>
    by_cases h : kv.1 = k
    · simp [dget, dset, h]
    · simp [dget, dset, h, ih]

theorem mem_dset {α : Type} {d : List (String × α)} {k : String} {v : α}
    {kv : String × α} (h : kv ∈ dset d k v) : kv = (k, v) ∨ kv ∈ d := by
  induction d with
  | nil => simpa [dset] using h
  | cons hd rest ih =>
    by_cases hk : hd.1 = k
    · simp only [dset, if_pos hk, List.mem_cons] at h
      rcases h with h | h
      · exact Or.inl h
      · exact Or.inr (List.mem_cons_of_mem _ h)
    · simp only [dset, if_neg hk, List.mem_cons] at h
      rcases h with h | h
      · exact Or.inr (h ▸ List.mem_cons_self _ _)
      · rcases ih h with h' | h'
        · exact Or.inl h'
        · exact Or.inr (List.mem_cons_of_mem _ h')

theorem dget_nonneg {d : List (String × ℤ)} (h : ∀ kv ∈ d, 0 ≤ kv.2) (k : String) :
    0 ≤ dget d k 0 := by
  induction d with
  | nil => simp [dget]
  | cons kv rest ih =>
    by_cases hk : kv.1 = k
    · simpa [dget, hk] using h kv (List.mem_cons_self _ _)
    · have hrest : ∀ kv' ∈ rest, 0 ≤ kv'.2 := fun kv' hkv' =>
        h kv' (List.mem_cons_of_mem _ hkv')
      simpa [dget, hk] using ih hrest

/-! Helper lemmas about the portfolio operations. -/

theorem price_mul_floor_le (cash price : ℚ) (hpr : 0 < price) :
    price * ((⌊cash / price⌋ : ℤ) : ℚ) ≤ cash := by
  have h1 : ((⌊cash / price⌋ : ℤ) : ℚ) ≤ cash / price := Int.floor_le _
  calc price * ((⌊cash / price⌋ : ℤ) : ℚ)
      ≤ price * (cash / price) := mul_le_mul_of_nonneg_left h1 hpr.le
    _ = cash := by field_simp

theorem buy_true_cash (p : Portfolio) (symbol : String) (price : ℚ) (shares : ℤ)
    (d : String) (h : (p.buy symbol price shares d).1 = true) :
    (p.buy symbol price shares d).2.cash = p.cash - price * (shares : ℚ) := by
  by_cases h1 : p.cash < price * (shares : ℚ)
  · simp [Portfolio.buy, h1] at h
  · simp [Portfolio.buy, h1]

theorem sell_true_cash (p : Portfolio) (symbol : String) (price : ℚ) (shares : ℤ)
    (d : String) (h : (p.sell symbol price shares d).1 = true) :
    (p.sell symbol price shares d).2.cash = p.cash + price * (shares : ℚ) := by
  by_cases h1 : dget p.holdings symbol 0 < shares
  · simp [Portfolio.sell, h1] at h
  · simp [Portfolio.sell, h1]

theorem buy_preserves_nonneg (p : Portfolio) (symbol : String) (price : ℚ)
    (shares : ℤ) (d : String) (hpr : 0 ≤ price) (hsh : 0 < shares)
    (hp : p.nonneg) : ((p.buy symbol price shares d).2).nonneg := by
  obtain ⟨hc, hh⟩ := hp
  by_cases h : p.cash < price * (shares : ℚ)
  · have heq : (p.buy symbol price shares d).2 = p := by simp [Portfolio.buy, h]
    rw [heq]; exact ⟨hc, hh⟩
  · simp only [Portfolio.buy, if_neg h]
    refine ⟨by simpa using sub_nonneg.2 (not_lt.1 h), ?_⟩
    intro kv hkv
    rcases mem_dset hkv with rfl | hkv'
    · exact add_nonneg (dget_nonneg hh symbol) hsh.le
    · exact hh kv hkv'

theorem sell_preserves_nonneg (p : Portfolio) (symbol : String) (price : ℚ)
    (shares : ℤ) (d : String) (hpr : 0 ≤ price) (hsh : 0 < shares)
    (hp : p.nonneg) : ((p.sell symbol price shares d).2).nonneg := by
  obtain ⟨hc, hh⟩ := hp
  by_cases h : dget p.holdings symbol 0 < shares
  · have heq : (p.sell symbol price shares d).2 = p := by simp [Portfolio.sell, h]
    rw [heq]; exact ⟨hc, hh⟩
  · simp only [Portfolio.sell, if_neg h]
    have hcost : (0:ℚ) ≤ price * (shares : ℚ) :=
      mul_nonneg hpr (by exact_mod_cast hsh.le)
    refine ⟨by simpa using add_nonneg hc hcost, ?_⟩
    intro kv hkv
    rcases mem_dset hkv with rfl | hkv'
    · exact sub_nonneg.2 (not_lt.1 h)
    · exact hh kv hkv'

theorem applyOps_nonneg (ops : List TradeOp) :
    ∀ p : Portfolio, p.nonneg → (∀ op ∈ ops, validOp op) →
      (applyOps p ops).nonneg := by
  induction ops with
  | nil => intro p hp _; simpa [applyOps] using hp
  | cons op rest ih =>
    intro p hp hops
    have hstep : (applyOp p op).nonneg := by
      cases op with
      | buyOp s pr sh d =>
        have hv := hops _ (List.mem_cons_self _ _)
        simp only [validOp] at hv
        exact buy_preserves_nonneg p s pr sh d hv.1 hv.2 hp
      | sellOp s pr sh d =>
        have hv := hops _ (List.mem_cons_self _ _)
        simp only [validOp] at hv
        exact sell_preserves_nonneg p s pr sh d hv.1 hv.2 hp
    have hrew : applyOps p (op :: rest) = applyOps (applyOp p op) rest := rfl
    rw [hrew]
    exact ih _ hstep (fun o ho => hops o (List.mem_cons_of_mem _ ho))

/-- C1: starting from nonnegative cash, every sequence of `buy`/`sell` calls
with nonnegative prices and positive integer share counts keeps `cash ≥ 0`
and `holdings[s] ≥ 0` for every symbol `s`.  Quantifying over all valid
sequences covers the state after each call, since every prefix of a valid
sequence is itself a valid sequence from the same start state. -/
theorem C1_ledger_invariant (p : Portfolio) (ops : List TradeOp)
    (hp : p.nonneg) (hops : ∀ op ∈ ops, validOp op) :
    0 ≤ (applyOps p ops).cash ∧ ∀ s, 0 ≤ dget (applyOps p ops).holdings s 0 := by
  have key := applyOps_nonneg ops p hp hops
  exact ⟨key.1, fun s => dget_nonneg key.2 s⟩

/-- A sample call sequence with an in-budget buy, an over-inventory sell
(rejected) and a full liquidation. -/
def sampleOps : List TradeOp :=
  [.buyOp "AAPL" 150 10 "D1", .sellOp "AAPL" 160 15 "D2", .sellOp "AAPL" 160 10 "D3"]

theorem C1_ledger_invariant_witness :
    (Portfolio.mk 100000 [] []).nonneg ∧
      (0 ≤ (applyOps (Portfolio.mk 100000 [] []) sampleOps).cash ∧
       ∀ s, 0 ≤ dget (applyOps (Portfolio.mk 100000 [] []) sampleOps).holdings s 0) := by
  have hp : (Portfolio.mk 100000 [] []).nonneg := ⟨by norm_num, by simp⟩
  refine ⟨hp, C1_ledger_invariant _ sampleOps hp ?_⟩
  intro op hop
  simp only [sampleOps, List.mem_cons, List.not_mem_nil, or_false] at hop
  rcases hop with rfl | rfl | rfl <;>
    exact ⟨by norm_num, by norm_num⟩

/-- C2: `buy` returns `false` and leaves the state unchanged exactly when
`cash < price*shares`; otherwise it returns `true`, debits cash by
`price*shares`, adds `shares` to `holdings[symbol]` and appends one BUY
transaction record. -/
theorem C2_buy_contract (p : Portfolio) (symbol : String) (price : ℚ)
    (shares : ℤ) (d : String) (hs : 0 < shares) :
    (p.cash < price * (shares : ℚ) →
      p.buy symbol price shares d = (false, p)) ∧
    (price * (shares : ℚ) ≤ p.cash →
      p.buy symbol price shares d =
        (true,
          { cash := p.cash - price * (shares : ℚ)
            holdings := dset p.holdings symbol (dget p.holdings symbol 0 + shares)
            transactions := p.transactions ++ [⟨d, symbol, "BUY", price, shares⟩] }) ∧
      dget (p.buy symbol price shares d).2.holdings symbol 0 =
        dget p.holdings symbol 0 + shares) := by
  refine ⟨fun h => by simp [Portfolio.buy, h], fun h => ?_⟩
  have hnot : ¬ p.cash < price * (shares : ℚ) := not_lt.2 h
  constructor
  · simp [Portfolio.buy, hnot]
  · simp [Portfolio.buy, hnot, dget_dset_self]

theorem C2_buy_contract_witness :
    0 < (10:ℤ) ∧ (150:ℚ) * ((10:ℤ):ℚ) ≤ (100000:ℚ) ∧
      ((Portfolio.mk 100000 [] []).buy "AAPL" 150 10 "D").1 = true ∧
      ((Portfolio.mk 100000 [] []).buy "AAPL" 150 10 "D").2.cash = 98500 ∧
      dget ((Portfolio.mk 100000 [] []).buy "AAPL" 150 10 "D").2.holdings "AAPL" 0 = 10 ∧
      ((Portfolio.mk 100000 [] []).buy "AAPL" 150 10 "D").2.transactions =
        [⟨"D", "AAPL", "BUY", 150, 10⟩] := by
  have h := (C2_buy_contract (Portfolio.mk 100000 [] []) "AAPL" 150 10 "D"
    (by norm_num)).2 (by norm_num)
  refine ⟨by norm_num, by norm_num, ?_, ?_, ?_, ?_⟩
  · rw [h.1]
  · rw [h.1]; norm_num
  · rw [h.2]; simp [dget]
  · rw [h.1]; simp

/-- C3: `sell` returns `false` iff `holdings.get(symbol, 0) < shares`, in
which case the state is unchanged; on success it returns `true`, credits
cash by `price*shares`, removes `shares` from `holdings[symbol]` and
appends one SELL transaction record. -/
theorem C3_sell_contract (p : Portfolio) (symbol : String) (price : ℚ)
    (shares : ℤ) (d : String) (hs : 0 < shares) :
    ((p.sell symbol price shares d).1 = false ↔
      dget p.holdings symbol 0 < shares) ∧
    (dget p.holdings symbol 0 < shares →
      p.sell symbol price shares d = (false, p)) ∧
    (shares ≤ dget p.holdings symbol 0 →
      p.sell symbol price shares d =
        (true,
          { cash := p.cash + price * (shares : ℚ)
            holdings := dset p.holdings symbol (dget p.holdings symbol 0 - shares)
            transactions := p.transactions ++ [⟨d, symbol, "SELL", price, shares⟩] }) ∧
      dget (p.sell symbol price shares d).2.holdings symbol 0 =
        dget p.holdings symbol 0 - shares) := by
  refine ⟨?_, fun h => by simp [Portfolio.sell, h], fun h => ?_⟩
  · by_cases h : dget p.holdings symbol 0 < shares
    · simp [Portfolio.sell, h]
    · simp [Portfolio.sell, h]
  · have hnot : ¬ dget p.holdings symbol 0 < shares := not_lt.2 h
    constructor
    · simp [Portfolio.sell, hnot]
    · simp [Portfolio.sell, hnot, dget_dset_self]

theorem C3_sell_contract_witness :
    0 < (15:ℤ) ∧
      dget (Portfolio.mk 0 [("AAPL", 10)] []).holdings "AAPL" 0 < 15 ∧
      (Portfolio.mk 0 [("AAPL", 10)] []).sell "AAPL" 160 15 "D" =
        (false, Portfolio.mk 0 [("AAPL", 10)] []) := by
  have hlt : dget (Portfolio.mk 0 [("AAPL", 10)] []).holdings "AAPL" 0 < 15 := by
    simp [dget]
  exact ⟨by norm_num, hlt,
    (C3_sell_contract (Portfolio.mk 0 [("AAPL", 10)] []) "AAPL" 160 15 "D"
      (by norm_num)).2.1 hlt⟩

/-- C4: when the recommendation's action is BUY and the current price is at
or below the buy limit, the policy buys exactly `⌊cash / price⌋` whole
shares at the current price (the internal `buy` succeeds because
`price * ⌊cash/price⌋ ≤ cash`); when that quantity is 0, the portfolio —
including its transaction log — is unchanged. -/
theorem C4_buy_policy (p : Portfolio) (symbol : String) (rec : Recommendation)
    (price : ℚ) (d : String) (ha : rec.action = "BUY")
    (hl : price ≤ rec.buy_limit) (hpr : 0 < price) :
    (0 < ⌊p.cash / price⌋ →
      tradeStep p symbol rec price d =
        { cash := p.cash - price * ((⌊p.cash / price⌋ : ℤ) : ℚ)
          holdings := dset p.holdings symbol
            (dget p.holdings symbol 0 + ⌊p.cash / price⌋)
          transactions := p.transactions ++
            [⟨d, symbol, "BUY", price, ⌊p.cash / price⌋⟩] }) ∧
    (⌊p.cash / price⌋ = 0 → tradeStep p symbol rec price d = p) := by
  constructor
  · intro hn
    have hle := price_mul_floor_le p.cash price hpr
    simp [tradeStep, ha, hl, hn, Portfolio.buy, not_lt.2 hle]
  · intro h0
    simp [tradeStep, ha, hl, h0]

theorem C4_buy_policy_witness :
    (145:ℚ) ≤ 150 ∧ (0:ℚ) < 145 ∧
      0 < ⌊(1000:ℚ) / 145⌋ ∧
      (tradeStep (Portfolio.mk 1000 [] []) "AAPL"
        (Recommendation.mk "BUY" 150 180) 145 "D").cash = 130 ∧
      dget (tradeStep (Portfolio.mk 1000 [] []) "AAPL"
        (Recommendation.mk "BUY" 150 180) 145 "D").holdings "AAPL" 0 = 6 ∧
      ⌊(100:ℚ) / 145⌋ = 0 ∧
      tradeStep (Portfolio.mk 100 [] []) "AAPL"
        (Recommendation.mk "BUY" 150 180) 145 "D" = Portfolio.mk 100 [] [] := by
  have hf6 : ⌊(1000:ℚ) / 145⌋ = 6 := by
    rw [Int.floor_eq_iff]
    norm_num
  have hf0 : ⌊(100:ℚ) / 145⌋ = 0 := by
    rw [Int.floor_eq_iff]
    norm_num
  have h1 := (C4_buy_policy (Portfolio.mk 1000 [] []) "AAPL"
    (Recommendation.mk "BUY" 150 180) 145 "D" rfl (by norm_num) (by norm_num)).1
    (by rw [hf6]; norm_num)
  have h2 := (C4_buy_policy (Portfolio.mk 100 [] []) "AAPL"
    (Recommendation.mk "BUY" 150 180) 145 "D" rfl (by norm_num) (by norm_num)).2 hf0
  refine ⟨by norm_num, by norm_num, by rw [hf6]; norm_num, ?_, ?_, hf0, h2⟩
  · rw [h1]; simp [hf6]; norm_num
  · rw [h1]; simp [hf6, dget_dset_self, dget]

/-- C5: with a SELL action, a current price at or above the sell limit
liquidates the whole holding (no-op when the holding is ≤ 0); a price below
the sell limit leaves the portfolio unchanged regardless of holdings; and
the opposite limit is never consulted: a SELL step is independent of
`buy_limit`, and a BUY step is independent of `sell_limit`. -/
theorem C5_sell_policy (p : Portfolio) (symbol : String) (bl sl price : ℚ)
    (d : String) :
    (sl ≤ price → 0 < dget p.holdings symbol 0 →
      tradeStep p symbol (Recommendation.mk "SELL" bl sl) price d =
        { cash := p.cash + price * ((dget p.holdings symbol 0 : ℤ) : ℚ)
          holdings := dset p.holdings symbol 0
          transactions := p.transactions ++
            [⟨d, symbol, "SELL", price, dget p.holdings symbol 0⟩] }) ∧
    (sl ≤ price → dget p.holdings symbol 0 ≤ 0 →
      tradeStep p symbol (Recommendation.mk "SELL" bl sl) price d = p) ∧
    (price < sl →
      tradeStep p symbol (Recommendation.mk "SELL" bl sl) price d = p) ∧
    (∀ bl', tradeStep p symbol (Recommendation.mk "SELL" bl sl) price d =
            tradeStep p symbol (Recommendation.mk "SELL" bl' sl) price d) ∧
    (∀ sl', tradeStep p symbol (Recommendation.mk "BUY" bl sl) price d =
            tradeStep p symbol (Recommendation.mk "BUY" bl sl') price d) := by
  refine ⟨fun hsl hpos => ?_, fun hsl hz => ?_, fun hlt => ?_, fun bl' => ?_,
    fun sl' => ?_⟩
  · simp [tradeStep, hsl, hpos, Portfolio.sell]
  · simp [tradeStep, hsl, not_lt.2 hz]
  · simp [tradeStep, not_le.2 hlt]
  · simp [tradeStep]
  · simp [tradeStep]

theorem C5_sell_policy_witness :
    (175:ℚ) < 180 ∧
      tradeStep (Portfolio.mk 0 [("AAPL", 10)] []) "AAPL"
        (Recommendation.mk "SELL" 150 180) 175 "D" =
        Portfolio.mk 0 [("AAPL", 10)] [] :=
  ⟨by norm_num,
    (C5_sell_policy (Portfolio.mk 0 [("AAPL", 10)] []) "AAPL" 150 180 175
      "D").2.2.1 (by norm_num)⟩

/-- C8: a successful `buy` followed by a successful `sell` of the same
symbol, price and share count restores cash to its pre-buy value. -/
theorem C8_roundtrip (p : Portfolio) (symbol : String) (price : ℚ)
    (shares : ℤ) (d d' : String)
    (hbuy : (p.buy symbol price shares d).1 = true)
    (hsell : ((p.buy symbol price shares d).2.sell symbol price shares d').1 = true) :
    ((p.buy symbol price shares d).2.sell symbol price shares d').2.cash = p.cash := by
  rw [sell_true_cash _ _ _ _ _ hsell, buy_true_cash _ _ _ _ _ hbuy]
  ring

theorem C8_roundtrip_witness :
    ((Portfolio.mk 100000 [] []).buy "AAPL" 150 10 "D").1 = true ∧
      (((Portfolio.mk 100000 [] []).buy "AAPL" 150 10 "D").2.sell "AAPL" 150 10
        "D").1 = true ∧
      (((Portfolio.mk 100000 [] []).buy "AAPL" 150 10 "D").2.sell "AAPL" 150 10
        "D").2.cash = 100000 := by
  have hb : ((Portfolio.mk 100000 [] []).buy "AAPL" 150 10 "D").1 = true := by
    norm_num [Portfolio.buy]
  have hs : (((Portfolio.mk 100000 [] []).buy "AAPL" 150 10 "D").2.sell "AAPL"
      150 10 "D").1 = true := by
    norm_num [Portfolio.buy, Portfolio.sell, dget, dset]
  exact ⟨hb, hs, C8_roundtrip _ "AAPL" 150 10 "D" "D" hb hs⟩

/-- Folding addition over a list starting from `init` is `init` plus the sum
of the mapped values. -/
theorem foldl_add_eq {α : Type} (f : α → ℚ) (l : List α) (init : ℚ) :
    l.foldl (fun t x => t + f x) init = init + (l.map f).sum := by
  induction l generalizing init with
  | nil => simp
  | cons x xs ih => simp [ih]; ring

/-- C9: `get_value` returns `cash + Σ holdings[s] * current_prices.get(s, 0)`
over the holdings entries; a symbol absent from `current_prices` contributes
0, and with empty holdings the sum is empty so the value is the cash.  The
function reads but never writes the portfolio (it is a pure function of
`p`). -/
theorem C9_get_value (p : Portfolio) (current_prices : List (String × ℚ)) :
    p.get_value current_prices =
      p.cash + (p.holdings.map
        (fun kv => (kv.2 : ℚ) * dget current_prices kv.1 0)).sum := by
  unfold Portfolio.get_value
  rw [foldl_add_eq (fun kv : String × ℤ => dget current_prices kv.1 0 * (kv.2 : ℚ))]
  have hfe : (fun kv : String × ℤ => dget current_prices kv.1 0 * (kv.2 : ℚ)) =
      fun kv : String × ℤ => (kv.2 : ℚ) * dget current_prices kv.1 0 :=
    funext fun kv => mul_comm _ _
  rw [hfe]

/-- C10: every trade the simulation loop issues succeeds: when the BUY branch
fires with a positive price and `⌊cash / price⌋ > 0` shares, the
insufficient-funds guard inside `Portfolio.buy` cannot trigger; when the
SELL branch fires with `holdings.get(symbol, 0) > 0` shares, the
insufficient-inventory guard inside `Portfolio.sell` cannot trigger. -/
theorem C10_loop_trades_succeed (p : Portfolio) (symbol : String) (price : ℚ)
    (d : String) :
    (0 < price → 0 < ⌊p.cash / price⌋ →
      (p.buy symbol price ⌊p.cash / price⌋ d).1 = true) ∧
    (0 < dget p.holdings symbol 0 →
      (p.sell symbol price (dget p.holdings symbol 0) d).1 = true) := by
  constructor
  · intro hpr _
    have hle := price_mul_floor_le p.cash price hpr
    simp [Portfolio.buy, not_lt.2 hle]
  · intro _
    simp [Portfolio.sell]

theorem C10_loop_trades_succeed_witness :
    (0:ℚ) < 145 ∧ 0 < ⌊(1000:ℚ) / 145⌋ ∧
      ((Portfolio.mk 1000 [] []).buy "AAPL" 145 ⌊(1000:ℚ) / 145⌋ "D").1 = true ∧
      0 < dget (Portfolio.mk 0 [("AAPL", 10)] []).holdings "AAPL" 0 ∧
      ((Portfolio.mk 0 [("AAPL", 10)] []).sell "AAPL" 145
        (dget (Portfolio.mk 0 [("AAPL", 10)] []).holdings "AAPL" 0) "D").1 = true := by
  have hf : (0:ℤ) < ⌊(1000:ℚ) / 145⌋ := by
    rw [show ⌊(1000:ℚ) / 145⌋ = 6 from by rw [Int.floor_eq_iff]; norm_num]
    norm_num
  have hh : 0 < dget (Portfolio.mk 0 [("AAPL", 10)] []).holdings "AAPL" 0 := by
    simp [dget]
  exact ⟨by norm_num, hf,
    (C10_loop_trades_succeed (Portfolio.mk 1000 [] []) "AAPL" 145 "D").1
      (by norm_num) hf,
    hh,
    (C10_loop_trades_succeed (Portfolio.mk 0 [("AAPL", 10)] []) "AAPL" 145 "D").2 hh⟩

/-- C6 as stated is false: on a day with no resolvable prices the loop body
takes the `continue` branch, which advances the date by one calendar day —
not by the configured 7-day `simulation_interval` — and leaves the iteration
counter `days_run` untouched, so the day does not count toward the
configured number of simulated days. -/
theorem C6_counterexample :
    ¬ ((runDay (LoopState.mk 0 0 (Portfolio.mk 100000 [] []))
          [] (fun _ => Recommendation.mk "HOLD" 0 0) "D").current_date =
        0 + simulation_interval ∧
       (runDay (LoopState.mk 0 0 (Portfolio.mk 100000 [] []))
          [] (fun _ => Recommendation.mk "HOLD" 0 0) "D").days_run = 0 + 1) := by
  simp [runDay, simulation_interval]

/-- C6 amended: on a simulated day where no symbol has a resolvable price,
no trades are attempted and the portfolio is untouched, the simulated date
advances by exactly one calendar day (not by the 7-day trading interval),
and the day does not count toward the iteration counter `days_run`. -/
theorem C6_skip_day (s : LoopState) (recs : String → Recommendation)
    (date : String) :
    runDay s [] recs date =
      LoopState.mk (s.current_date + 1) s.days_run s.portfolio := by
  simp [runDay]

/-- On the `simulatorInit` output, looking up a symbol whose download was
empty finds nothing: only symbols with nonempty downloads are stored. -/
theorem dgetOpt_simulatorInit_empty (download : String → List (ℤ × ℚ))
    (s : String) (hempty : download s = []) (l : List String) :
    dgetOpt (l.filterMap (fun s' =>
      if download s' = [] then none else some (s', download s'))) s = none := by
  induction l with
  | nil => rfl
  | cons hd tl ih =>
    by_cases hd_empty : download hd = []
    · simp only [List.filterMap_cons, hd_empty, if_pos]
      exact ih
    · have hne : hd ≠ s := by rintro rfl; exact hd_empty hempty
      simp only [List.filterMap_cons, hd_empty, if_neg, dgetOpt]
      rw [if_neg hne]
      exact ih

/-- If some symbol of the list raises in `get_price`, the `update_prices`
loop aborts with that (or an earlier) uncaught error. -/
theorem update_go_error (m : StockMarketSimulator) (d : ℤ) (s : String) :
    ∀ (l : List String) (acc : List (String × ℚ)), s ∈ l →
      (∃ e, get_price m s d = Except.error e) →
      ∃ e, update_go m d l acc = Except.error e := by
  intro l
  induction l with
  | nil => intro acc h _; simp at h
  | cons hd tl ih =>
    intro acc hmem herr
    cases hgp : get_price m hd d with
    | error e => exact ⟨e, by simp [update_go, hgp]⟩
    | ok v =>
      have hs_tl : s ∈ tl := by
        rcases List.mem_cons.1 hmem with rfl | h
        · obtain ⟨e, he⟩ := herr
          rw [he] at hgp
          cases hgp
        · exact h
      cases v with
      | none =>
        obtain ⟨e, he⟩ := ih acc hs_tl herr
        exact ⟨e, by simp [update_go, hgp, he]⟩
      | some price =>
        obtain ⟨e, he⟩ := ih (acc ++ [(hd, price)]) hs_tl herr
        exact ⟨e, by simp [update_go, hgp, he]⟩

/-- C7 as stated is false: constructing a simulator for a symbol with no
price history at all is not a hard failure — the symbol is merely logged and
omitted from `historical_data` — and the very first `update_prices` call of
the simulation loop then observes an uncaught `ValueError` from
`get_price`. -/
theorem C7_counterexample :
    (simulatorInit ["AAPL"] (fun _ => [])).historical_data = [] ∧
      update_prices (simulatorInit ["AAPL"] (fun _ => [])) 0 =
        Except.error "No historical data for AAPL" :=
  ⟨rfl, rfl⟩

/-- C7 amended: a symbol with no price history at all does not fail at setup
(simulator construction always returns normally, omitting the symbol from
`historical_data`), and every later `update_prices` call — the price
boundary the simulation loop calls directly — raises an uncaught
`ValueError` for that symbol. -/
theorem C7_missing_history_raises_in_loop (syms : List String)
    (download : String → List (ℤ × ℚ)) (d : ℤ) (s : String)
    (hs : s ∈ syms) (hempty : download s = []) :
    ∃ e, update_prices (simulatorInit syms download) d = Except.error e := by
  have hget : get_price (simulatorInit syms download) s d =
      Except.error ("No historical data for " ++ s) := by
    unfold get_price simulatorInit
    rw [dgetOpt_simulatorInit_empty download s hempty syms]
  exact update_go_error (simulatorInit syms download) d s syms [] hs
    ⟨_, hget⟩

theorem C7_missing_history_raises_in_loop_witness :
    "AAPL" ∈ ["AAPL"] ∧ (fun _ : String => ([] : List (ℤ × ℚ))) "AAPL" = [] ∧
      ∃ e, update_prices (simulatorInit ["AAPL"]
        (fun _ => ([] : List (ℤ × ℚ)))) 0 = Except.error e :=
  ⟨by simp, rfl,
    C7_missing_history_raises_in_loop ["AAPL"] (fun _ => []) 0 "AAPL"
      (by simp) rfl⟩

end StockTrader
